import Mathlib

/-!
Verification of the job orchestration / acquisition / retention design of the
video-download API against its Python source (src/api/main.py,
src/api/video_processor.py, src/api/file_cleaner.py).

The Python code is shallowly embedded: pure string manipulation becomes
functions on `List Char` / `String`, the yt-dlp extractor and the ffmpeg
transcoder become an explicit oracle (`Extractor`), the in-process task
registry becomes an explicit `Registry` state threaded through the boundary
operations, and the retention pass becomes a pure function over scanned
`FileInfo` records parameterised by a deletion-success oracle.
-/

namespace VideoAPI

/-! ### Character classes used by `_sanitize_filename` (src/api/main.py:148-157)

`pyIsWordChar` models Python's regex class `\w` (letters, digits, underscore);
`pyIsSpace` models `\s` (ASCII whitespace).  The safety claims proved below
depend only on path separators, dots and whitespace lying outside `\w`. -/

def pyIsWordChar (c : Char) : Bool := c.isAlphanum || c = '_'

def pyIsSpace (c : Char) : Bool :=
  c = ' ' || c = '\t' || c = '\n' || c = '\r' || c = '\x0b' || c = '\x0c'

/-- Characters kept by the first substitution `re.sub(r"[^\w\-\s]", "", title)`. -/
def keepWordHyphenSpace (c : Char) : Bool := pyIsWordChar c || c = '-' || pyIsSpace c

/-- `re.sub(r"\s+", "_", s)`: each maximal whitespace run becomes one `'_'`.
The Bool argument records whether the previous character was whitespace. -/
def collapseWs : Bool → List Char → List Char
  | _, [] => []
  | prevWs, c :: rest =>
    if pyIsSpace c then
      if prevWs then collapseWs true rest else '_' :: collapseWs true rest
    else c :: collapseWs false rest

/-- Characters stripped from both ends by `.strip("._-")`. -/
def stripChar (c : Char) : Bool := c = '.' || c = '_' || c = '-'

/-- Python `str.strip("._-")` on a character list. -/
def pyStripDotsDashes (s : List Char) : List Char :=
  ((s.dropWhile stripChar).reverse.dropWhile stripChar).reverse

/-- `_sanitize_filename` (src/api/main.py:148-157): empty title falls back to
"untitled"; otherwise drop everything outside `[\w\-\s]`, collapse whitespace
runs to `'_'`, strip `"._-"` from both ends, clip to 80 characters, and fall
back to "untitled" when nothing remains. -/
def sanitize_filename (title : List Char) : List Char :=
  if title = [] then "untitled".toList
  else
    let safe1 := title.filter keepWordHyphenSpace
    let safe2 := collapseWs false safe1
    let safe3 := pyStripDotsDashes safe2
    let clipped := safe3.take 80
    if clipped = [] then "untitled".toList else clipped

/-! ### `download_file` (src/api/main.py:367-412) -/

/-- Does `needle` occur at the head of `hay`? -/
def listStartsWith : List Char → List Char → Bool
  | [], _ => true
  | _ :: _, [] => false
  | a :: as, b :: bs => a = b && listStartsWith as bs

/-- Python's substring test `needle in hay`. -/
def containsSub (needle : List Char) : List Char → Bool
  | [] => needle.isEmpty
  | c :: rest => listStartsWith needle (c :: rest) || containsSub needle rest

/-- The guard `'..' in file_id or '/' in file_id or '\\' in file_id`
(src/api/main.py:380). -/
def hasPathTraversal (fileId : List Char) : Bool :=
  containsSub ['.', '.'] fileId || containsSub ['/'] fileId ||
    containsSub ['\\'] fileId

/-- `pathlib.PurePath.name`: the component after the last `'/'`. -/
def pathName (s : List Char) : List Char :=
  (s.reverse.takeWhile (fun c => c ≠ '/')).reverse

/-- `pathlib.PurePath.suffix`: the extension of the final component, empty
unless the last dot is neither the first nor the last character. -/
def pySuffix (name : List Char) : List Char :=
  let rev := name.reverse
  let extRev := rev.takeWhile (fun c => c ≠ '.')
  match rev.dropWhile (fun c => c ≠ '.') with
  | [] => []
  | _ :: restRev =>
    if restRev = [] then []
    else if extRev = [] then []
    else '.' :: extRev.reverse

def videoExts : List (List Char) :=
  [".mp4".toList, ".avi".toList, ".mkv".toList, ".mov".toList, ".wmv".toList]

def audioExts : List (List Char) :=
  [".mp3".toList, ".wav".toList, ".m4a".toList, ".aac".toList, ".flac".toList]

/-- Media-type selection from the lowered extension (src/api/main.py:388-394). -/
def mediaTypeFor (ext : List Char) : String :=
  if ext ∈ videoExts then "video/mp4"
  else if ext ∈ audioExts then "audio/mpeg"
  else "application/octet-stream"

inductive DownloadResp
  /-- HTTP 400, invalid file name. -/
  | badRequest
  /-- HTTP 404, file absent. -/
  | notFound
  /-- HTTP 200 streaming the file with the given content type. -/
  | fileResp (mediaType : String)
deriving DecidableEq

/-- `download_file` (src/api/main.py:367-412).  `fsExists` is the filesystem
oracle for `file_path.exists()`.  The second component records whether the
filesystem was consulted at all: the traversal check happens before any
filesystem access. -/
def download_file (fsExists : List Char → Bool) (fileId : List Char) :
    DownloadResp × Bool :=
  if hasPathTraversal fileId then (.badRequest, false)
  else if !(fsExists fileId) then (.notFound, true)
  else (.fileResp (mediaTypeFor ((pySuffix (pathName fileId)).map Char.toLower)),
        true)

/-! #### Sanitizer lemmas -/

theorem mem_collapseWs {c : Char} :
    ∀ (b : Bool) (s : List Char), c ∈ collapseWs b s →
      c = '_' ∨ (c ∈ s ∧ pyIsSpace c = false) := by
  intro b s
  induction s generalizing b with
  | nil => intro h; simp [collapseWs] at h
  | cons a rest ih =>
    intro h
    by_cases ha : pyIsSpace a = true
    · by_cases hb : b = true
      · subst hb
        simp only [collapseWs, ha, if_pos] at h
        rcases ih true h with h1 | ⟨h2, h3⟩
        · exact Or.inl h1
        · exact Or.inr ⟨List.mem_cons_of_mem _ h2, h3⟩
      · replace hb : b = false := by
          cases b <;> simp_all
        subst hb
        simp only [collapseWs, ha, if_pos, if_neg, Bool.false_eq_true,
          not_false_iff, List.mem_cons] at h
        rcases h with h | h
        · exact Or.inl h
        · rcases ih true h with h1 | ⟨h2, h3⟩
          · exact Or.inl h1
          · exact Or.inr ⟨List.mem_cons_of_mem _ h2, h3⟩
    · replace ha : pyIsSpace a = false := by
        cases hx : pyIsSpace a <;> simp_all
      simp only [collapseWs, ha, Bool.false_eq_true, if_neg, not_false_iff,
        List.mem_cons] at h
      rcases h with h | h
      · subst h; exact Or.inr ⟨List.mem_cons_self _ _, ha⟩
      · rcases ih false h with h1 | ⟨h2, h3⟩
        · exact Or.inl h1
        · exact Or.inr ⟨List.mem_cons_of_mem _ h2, h3⟩

theorem mem_pyStripDotsDashes {c : Char} {s : List Char}
    (h : c ∈ pyStripDotsDashes s) : c ∈ s := by
  unfold pyStripDotsDashes at h
  rw [List.mem_reverse] at h
  have h2 := (List.dropWhile_sublist (l := (s.dropWhile stripChar).reverse)
    (p := stripChar)).mem h
  rw [List.mem_reverse] at h2
  exact (List.dropWhile_sublist (l := s) (p := stripChar)).mem h2

theorem sanitize_chars {c : Char} {title : List Char}
    (h : c ∈ sanitize_filename title) :
    pyIsWordChar c = true ∨ c = '-' := by
  unfold sanitize_filename at h
  by_cases ht : title = []
  · rw [if_pos ht] at h
    -- every character of "untitled" is a word character
    fin_cases h <;> simp [pyIsWordChar, Char.isAlphanum, Char.isAlpha,
      Char.isLower, Char.isUpper, Char.isDigit]
  · rw [if_neg ht] at h
    by_cases hc :
        (pyStripDotsDashes (collapseWs false (title.filter keepWordHyphenSpace))).take 80 = []
    · rw [if_pos hc] at h
      fin_cases h <;> simp [pyIsWordChar, Char.isAlphanum, Char.isAlpha,
        Char.isLower, Char.isUpper, Char.isDigit]
    · rw [if_neg hc] at h
      have h1 := List.take_subset 80 _ h
      have h2 := mem_pyStripDotsDashes h1
      rcases mem_collapseWs false _ h2 with h3 | ⟨h4, h5⟩
      · left; subst h3; rfl
      · have h6 := List.of_mem_filter h4
        unfold keepWordHyphenSpace at h6
        rcases Bool.or_eq_true_iff.1 h6 with h7 | h8
        · rcases Bool.or_eq_true_iff.1 h7 with h9 | h10
          · exact Or.inl h9
          · exact Or.inr (by simpa using h10)
        · rw [h5] at h8; cases h8

theorem word_not_space {c : Char} (h : pyIsWordChar c = true) :
    pyIsSpace c = false := by
  cases hx : pyIsSpace c
  · rfl
  · exfalso
    unfold pyIsSpace at hx
    simp only [Bool.or_eq_true, decide_eq_true_eq] at hx
    rcases hx with ((((rfl | rfl) | rfl) | rfl) | rfl) | rfl <;> revert h <;> decide

/-- Claim C10: `_sanitize_filename` is total and safe: for every input
(including the empty string) the result is a non-empty string of at most 80
characters containing only word characters, hyphens and underscores — in
particular no path separators, dots or whitespace — with the literal
"untitled" as fallback when sanitization leaves nothing. -/
theorem sanitize_filename_safe (title : List Char) :
    sanitize_filename title ≠ [] ∧
    (sanitize_filename title).length ≤ 80 ∧
    ∀ c ∈ sanitize_filename title,
      (pyIsWordChar c = true ∨ c = '-' ∨ c = '_') ∧
      c ≠ '/' ∧ c ≠ '\\' ∧ c ≠ '.' ∧ pyIsSpace c = false := by
  refine ⟨?_, ?_, ?_⟩
  · unfold sanitize_filename
    by_cases ht : title = []
    · rw [if_pos ht]; decide
    · rw [if_neg ht]
      by_cases hc :
          (pyStripDotsDashes (collapseWs false (title.filter keepWordHyphenSpace))).take 80 = []
      · rw [if_pos hc]; decide
      · rw [if_neg hc]; exact hc
  · unfold sanitize_filename
    by_cases ht : title = []
    · rw [if_pos ht]; decide
    · rw [if_neg ht]
      by_cases hc :
          (pyStripDotsDashes (collapseWs false (title.filter keepWordHyphenSpace))).take 80 = []
      · rw [if_pos hc]; decide
      · rw [if_neg hc, List.length_take]
        exact min_le_left _ _
  · intro c hc
    have hw := sanitize_chars hc
    have hgen : pyIsWordChar c = true ∨ c = '-' ∨ c = '_' := by
      rcases hw with h | h
      · exact Or.inl h
      · exact Or.inr (Or.inl h)
    refine ⟨hgen, ?_, ?_, ?_, ?_⟩ <;> rcases hw with h | h
    · rintro rfl; revert h; decide
    · rintro rfl; cases h
    · rintro rfl; revert h; decide
    · rintro rfl; cases h
    · rintro rfl; revert h; decide
    · rintro rfl; cases h
    · exact word_not_space h
    · subst h; decide

/-- Claim C9: a download request whose name contains a path-traversal
sequence (`..`, `/` or `\`) is answered with HTTP 400 before any filesystem
access, and a well-formed name whose file is absent yields HTTP 404. -/
theorem download_file_traversal_and_missing (fsExists : List Char → Bool)
    (fileId : List Char) :
    (hasPathTraversal fileId = true →
      download_file fsExists fileId = (.badRequest, false)) ∧
    (hasPathTraversal fileId = false → fsExists fileId = false →
      download_file fsExists fileId = (.notFound, true)) := by
  constructor
  · intro h; simp [download_file, h]
  · intro h hfs; simp [download_file, h, hfs]

/-- Witness for C9 at the concrete names "../secret" and "clip.mp4". -/
theorem download_file_traversal_and_missing_witness :
    download_file (fun _ => false) "../secret".toList = (.badRequest, false) ∧
    download_file (fun _ => false) "clip.mp4".toList = (.notFound, true) := by
  exact ⟨(download_file_traversal_and_missing (fun _ => false) "../secret".toList).1
           (by decide),
         (download_file_traversal_and_missing (fun _ => false) "clip.mp4".toList).2
           (by decide) rfl⟩

/-! ### Acquisition engine (src/api/video_processor.py)

The yt-dlp extractor and the ffmpeg transcoder are external collaborators; we
model them as an oracle.  Each field is keyed by the inputs the code passes: a
URL and the unique working identifier (for the transcoder, the video file path
and the identifier).  `Except.ok p` means the call returned and left file `p`
on disk; `Except.error m` means the call raised with message `m`. -/

structure Extractor where
  fetchVideo : String → String → Except String String
  fetchAudio : String → String → Except String String
  transcode : String → String → Except String String

/-- `_download_video_only` (src/api/video_processor.py:374-397): every
exception is caught and logged, and the function returns the downloaded file
path or `None` — the failure message is discarded at this point. -/
def dl_video (ex : Extractor) (url uid : String) : Option String :=
  match ex.fetchVideo url uid with
  | .ok p => some p
  | .error _ => none

/-- `_download_audio_only` (src/api/video_processor.py:399-422), same
error-swallowing shape as `dl_video`. -/
def dl_audio (ex : Extractor) (url uid : String) : Option String :=
  match ex.fetchAudio url uid with
  | .ok p => some p
  | .error _ => none

/-- `_extract_audio_from_video` (src/api/video_processor.py:424-452): run
ffmpeg, return the audio path if the output file exists, `None` on any
failure. -/
def extract_audio_from_video (ex : Extractor) (videoPath uid : String) :
    Option String :=
  match ex.transcode videoPath uid with
  | .ok p => some p
  | .error _ => none

/-- The `result_files` dictionary returned by the engine. -/
structure ResultFiles where
  video : Option String := none
  audio : Option String := none
deriving DecidableEq

/-- One acquisition or transcoding attempt, recorded with the unique
identifier the code passed to it. -/
inductive Attempt
  | vid (uid : String)
  | aud (uid : String)
  | transco (uid : String)
deriving DecidableEq

/-- Error message of the engine when both wants are false
(ValueError at src/api/video_processor.py:243, rewrapped at line 372). -/
def msgNeither : String := "处理视频失败: 必须至少选择提取音频或保留视频中的一项"

/-- Error message when no file at all was obtained
(src/api/video_processor.py:366, rewrapped at line 372). -/
def msgNoFiles : String := "处理视频失败: 没有成功下载任何文件"

/-- Error message of the video-only branch when the original and the retry
attempt both failed (src/api/video_processor.py:333, rewrapped at 372). -/
def msgVideoFailed : String := "处理视频失败: 无法下载视频文件，请检查链接是否有效或稍后重试"

/-- `download_video_and_audio` (src/api/video_processor.py:221-372).  `uid` is
the uuid4-derived unique file-name prefix generated at line 250.  Returns the
engine outcome together with the ordered trace of extractor/transcoder
attempts actually made. -/
def download_video_and_audio (ex : Extractor) (url uid : String)
    (extract_audio keep_video : Bool) :
    Except String ResultFiles × List Attempt :=
  if !extract_audio && !keep_video then
    (.error msgNeither, [])
  else if keep_video && extract_audio then
    -- both wanted: concurrent attempts, then the bidirectional fallback
    let trace0 := [Attempt.vid uid, Attempt.aud uid]
    match dl_video ex url uid, dl_audio ex url uid with
    | some v, some a => (.ok ⟨some v, some a⟩, trace0)
    | some v, none =>
      -- audio failed, video succeeded: derive audio from the video
      match extract_audio_from_video ex v uid with
      | some a => (.ok ⟨some v, some a⟩, trace0 ++ [.transco uid])
      | none => (.ok ⟨some v, none⟩, trace0 ++ [.transco uid])
    | none, some a =>
      -- video failed, audio succeeded: retry video once under uid_retry
      match dl_video ex url (uid ++ "_retry") with
      | some v => (.ok ⟨some v, some a⟩, trace0 ++ [.vid (uid ++ "_retry")])
      | none => (.ok ⟨none, some a⟩, trace0 ++ [.vid (uid ++ "_retry")])
    | none, none =>
      -- both failed: one emergency video attempt under uid_emergency
      match dl_video ex url (uid ++ "_emergency") with
      | some v =>
        match extract_audio_from_video ex v (uid ++ "_emergency") with
        | some a =>
          (.ok ⟨some v, some a⟩,
           trace0 ++ [.vid (uid ++ "_emergency"), .transco (uid ++ "_emergency")])
        | none =>
          (.ok ⟨some v, none⟩,
           trace0 ++ [.vid (uid ++ "_emergency"), .transco (uid ++ "_emergency")])
      | none => (.error msgNoFiles, trace0 ++ [.vid (uid ++ "_emergency")])
  else if keep_video then
    -- video only: one retry, then fatal
    match dl_video ex url uid with
    | some v => (.ok ⟨some v, none⟩, [.vid uid])
    | none =>
      match dl_video ex url (uid ++ "_retry") with
      | some v => (.ok ⟨some v, none⟩, [.vid uid, .vid (uid ++ "_retry")])
      | none => (.error msgVideoFailed, [.vid uid, .vid (uid ++ "_retry")])
  else
    -- audio only: fall back to video download plus local transcoding
    match dl_audio ex url uid with
    | some a => (.ok ⟨none, some a⟩, [.aud uid])
    | none =>
      match dl_video ex url uid with
      | some v =>
        match extract_audio_from_video ex v uid with
        | some a => (.ok ⟨none, some a⟩, [.aud uid, .vid uid, .transco uid])
        | none => (.error msgNoFiles, [.aud uid, .vid uid, .transco uid])
      | none => (.error msgNoFiles, [.aud uid, .vid uid])

/-! ### Task registry and task runner (src/api/main.py) -/

/-- The metadata snapshot returned by `get_video_info`; only the title is
consumed by the task runner (for the sanitized file name). -/
structure VideoInfo where
  title : String
deriving DecidableEq

/-- One entry of the `tasks` dictionary (src/api/main.py:216-227). -/
structure TaskRec where
  status : String
  progress : Nat
  message : String
  created_at : String
  completed_at : Option String := none
  url : String
  extract_audio : Bool
  keep_video : Bool
  files : List (String × String) := []
  videoInfo : Option VideoInfo := none
  error : Option String := none
deriving DecidableEq

/-- The module-level mutable state of src/api/main.py:144-146: the `tasks`
dictionary (insertion-ordered association list, persisted after every
mutation), the `processing_urls` set and the `active_tasks` map (only its key
set matters to the claims). -/
structure Registry where
  tasks : List (String × TaskRec)
  processing_urls : List String
  active_tasks : List String
deriving DecidableEq

/-- Request body of POST /api/process (src/api/main.py:97-100). -/
structure ProcessVideoRequest where
  url : String
  extract_audio : Bool := true
  keep_video : Bool := true

/-- The fresh task record written on submission (src/api/main.py:216-227). -/
def initTask (req : ProcessVideoRequest) (now : String) : TaskRec :=
  { status := "processing", progress := 0, message := "开始处理视频...",
    created_at := now, url := req.url, extract_audio := req.extract_audio,
    keep_video := req.keep_video }

/-- Set insertion for `processing_urls.add` (a no-op when present). -/
def addUrl (urls : List String) (u : String) : List String :=
  if urls.contains u then urls else urls ++ [u]

/-- The `process_video` endpoint (src/api/main.py:186-247).  `newId` is the
uuid4 the code would generate, `now` the creation timestamp.  When the URL is
marked as in processing, the code scans the `tasks` dictionary in insertion
order and returns the id of the FIRST task whose url matches; otherwise it
creates a fresh record, marks the URL, spawns the background task and returns
the new id.  Note there is no validation of the two want-flags here. -/
def process_video (st : Registry) (newId now : String)
    (req : ProcessVideoRequest) : Registry × String :=
  match
    (if st.processing_urls.contains req.url then
      st.tasks.find? (fun p => p.2.url == req.url)
    else none) with
  | some (tid, _) => (st, tid)
  | none =>
    ({ tasks := st.tasks ++ [(newId, initTask req now)],
       processing_urls := addUrl st.processing_urls req.url,
       active_tasks := st.active_tasks ++ [newId] }, newId)

/-- Environment of one run of `process_video_task` (src/api/main.py:249-338):
the extractor oracle, the outcome of `get_video_info`, the uuid prefix the
engine generates, filesystem oracles for the link-building phase, and the
completion timestamp. -/
structure TaskEnv where
  ex : Extractor
  infoRes : Except String VideoInfo
  uniqueId : String
  fsExists : String → Bool
  renameOk : String → Bool
  now2 : String

/-- The error-path update of the task record (src/api/main.py:332-337):
status and message change, progress is left untouched. -/
def errUpd (t : TaskRec) (msg now2 : String) : TaskRec :=
  { t with status := "error", error := some msg,
           message := "处理失败: " ++ msg, completed_at := some now2 }

/-- `task_id.replace("-", "")[:6]` (src/api/main.py:287). -/
def short_id (taskId : String) : String :=
  ((taskId.toList.filter (fun c => c ≠ '-')).take 6).asString

/-- Iteration order of `result_files.items()` as built by the engine
branches: the video entry precedes the audio entry. -/
def result_files_list (r : ResultFiles) : List (String × String) :=
  (match r.video with | some v => [("video", v)] | none => []) ++
  (match r.audio with | some a => [("audio", a)] | none => [])

/-- Link building for one result entry (src/api/main.py:290-303): skip paths
that do not exist; rename to `{type}_{safeTitle}_{shortId}{ext}`, falling back
to the original name when the rename raises. -/
def build_link (fsExists renameOk : String → Bool)
    (safeTitle shortId : String) (entry : String × String) :
    Option (String × String) :=
  if fsExists entry.2 then
    let filename := (pathName entry.2.toList).asString
    let ext := (pySuffix filename.toList).asString
    let newFilename := entry.1 ++ "_" ++ safeTitle ++ "_" ++ shortId ++ ext
    some (entry.1,
      if renameOk entry.2 then "/api/download/" ++ newFilename
      else "/api/download/" ++ filename)
  else none

/-- `process_video_task` (src/api/main.py:249-338), as the sequence of
snapshots the `tasks[task_id]` record goes through, starting from the record
`t0` written on submission.  Mirrors the code: progress 10 while fetching
info, metadata recorded, progress 20 while downloading, then either the
completed record (progress 100, download links) or the error record (progress
untouched). -/
def runTask (env : TaskEnv) (taskId url : String)
    (extract_audio keep_video : Bool) (t0 : TaskRec) : List TaskRec :=
  let t1 := { t0 with status := "processing", progress := 10,
                      message := "正在获取视频信息..." }
  match env.infoRes with
  | .error e => [t0, t1, errUpd t1 e env.now2]
  | .ok info =>
    let t2 := { t1 with videoInfo := some info }
    let t3 := { t2 with progress := 20, message := "正在下载视频..." }
    match (download_video_and_audio env.ex url env.uniqueId
             extract_audio keep_video).1 with
    | .error e => [t0, t1, t2, t3, errUpd t3 e env.now2]
    | .ok rfiles =>
      let safeTitle := (sanitize_filename info.title.toList).asString
      let links := (result_files_list rfiles).filterMap
        (build_link env.fsExists env.renameOk safeTitle (short_id taskId))
      let t4 := { t3 with status := "completed", progress := 100,
                          message := "处理完成！",
                          completed_at := some env.now2, files := links }
      [t0, t1, t2, t3, t4]

/-! ### Concrete oracles used in counterexamples and witnesses -/

/-- The empty registry (fresh process, no snapshot on disk). -/
def emptyRegistry : Registry := ⟨[], [], []⟩

/-- An extractor whose every call fails, with distinct branch messages. -/
def exFail : Extractor :=
  ⟨fun _ _ => .error "video branch boom",
   fun _ _ => .error "audio branch boom",
   fun _ _ => .error "transcoder boom"⟩

/-- An extractor that downloads video but fails audio acquisition; the local
transcoder succeeds. -/
def exAudioFail : Extractor :=
  ⟨fun _ uid => .ok ("video_" ++ uid ++ ".mp4"),
   fun _ _ => .error "audio branch boom",
   fun _ uid => .ok ("audio_" ++ uid ++ ".mp3")⟩

/-- A task environment around a given extractor, with benign filesystem
oracles. -/
def envOf (ex : Extractor) : TaskEnv :=
  ⟨ex, .ok ⟨"My Title"⟩, "ab12cd34", fun _ => true, fun _ => true, "t9"⟩

/-! ### Helper lemmas -/

theorem find?_append_of_none {α : Type} (p : α → Bool) (l1 l2 : List α)
    (h : ∀ x ∈ l1, p x = false) : (l1 ++ l2).find? p = l2.find? p := by
  induction l1 with
  | nil => rfl
  | cons a as ih =>
    have ha := h a (List.mem_cons_self _ _)
    rw [List.cons_append, List.find?_cons, ha]
    exact ih (fun x hx => h x (List.mem_cons_of_mem _ hx))

theorem addUrl_contains (urls : List String) (u : String) :
    (addUrl urls u).contains u = true := by
  unfold addUrl
  by_cases h : urls.contains u = true
  · rw [if_pos h]; exact h
  · rw [if_neg h]
    induction urls with
    | nil => simp
    | cons a as ih => simp_all [List.contains_cons]

/-! ### Claims about submission and deduplication -/

/-- Claim C1 is refuted: a submission with `keep_video = false` and
`extract_audio = false` does NOT fail synchronously — `process_video` has no
validation at all; on the empty registry it returns the fresh task id and a
job record is created (and persisted by `save_tasks`). -/
theorem submit_neither_counterexample :
    (process_video emptyRegistry "T1" "t0" ⟨"http://u", false, false⟩).2
      = "T1" ∧
    (process_video emptyRegistry "T1" "t0" ⟨"http://u", false, false⟩).1.tasks
      = [("T1", initTask ⟨"http://u", false, false⟩ "t0")] := by
  constructor <;> rfl

/-- Claim C1 amended: a submission with both wants false is accepted by
`process_video` and creates and persists a job record; the validation is
raised only inside the acquisition engine (`ValueError`, rewrapped), so the
job later ends Failed (status "error") carrying the validation message. -/
theorem submit_neither_amended (st : Registry) (newId now url : String)
    (hurl : st.processing_urls.contains url = false) :
    (process_video st newId now ⟨url, false, false⟩).2 = newId ∧
    (process_video st newId now ⟨url, false, false⟩).1.tasks
      = st.tasks ++ [(newId, initTask ⟨url, false, false⟩ now)] ∧
    (∀ ex uid,
      (download_video_and_audio ex url uid false false).1
        = .error msgNeither) ∧
    (∀ env : TaskEnv, ∀ taskId info, env.infoRes = .ok info →
      (runTask env taskId url false false
          (initTask ⟨url, false, false⟩ now)).getLast?.map TaskRec.status
        = some "error" ∧
      (runTask env taskId url false false
          (initTask ⟨url, false, false⟩ now)).getLast?.map TaskRec.error
        = some (some msgNeither)) := by
  refine ⟨?_, ?_, ?_, ?_⟩
  · unfold process_video
    rw [hurl]
    rfl
  · unfold process_video
    rw [hurl]
    rfl
  · intro ex uid
    rfl
  · intro env taskId info hinfo
    unfold runTask
    rw [hinfo]
    exact ⟨rfl, rfl⟩

/-- Witness for the amended C1 at the empty registry with the all-failing
extractor environment. -/
theorem submit_neither_amended_witness :
    (emptyRegistry.processing_urls.contains "u" = false) ∧
    ((process_video emptyRegistry "T1" "t0" ⟨"u", false, false⟩).2 = "T1" ∧
     (process_video emptyRegistry "T1" "t0" ⟨"u", false, false⟩).1.tasks
       = emptyRegistry.tasks ++ [("T1", initTask ⟨"u", false, false⟩ "t0")] ∧
     (∀ ex uid,
       (download_video_and_audio ex "u" uid false false).1
         = .error msgNeither) ∧
     (∀ env : TaskEnv, ∀ taskId info, env.infoRes = .ok info →
       (runTask env taskId "u" false false
           (initTask ⟨"u", false, false⟩ "t0")).getLast?.map TaskRec.status
         = some "error" ∧
       (runTask env taskId "u" false false
           (initTask ⟨"u", false, false⟩ "t0")).getLast?.map TaskRec.error
         = some (some msgNeither))) :=
  ⟨rfl, submit_neither_amended emptyRegistry "T1" "t0" "u" rfl⟩

/-- A finished job record for URL "u", as left behind by a completed earlier
run (its URL has been discarded from `processing_urls`, the record stays). -/
def completedRec : TaskRec :=
  { status := "completed", progress := 100, message := "处理完成！",
    created_at := "t0", completed_at := some "t0c", url := "u",
    extract_audio := true, keep_video := true }

/-- The registry holding only that finished record. -/
def regC4 : Registry := ⟨[("T0", completedRec)], [], []⟩

/-- The registry after the first submission of the pair. -/
def regC4a : Registry := (process_video regC4 "T1" "t1" ⟨"u", true, true⟩).1

/-- Claim C4 is refuted: the duplicate lookup scans the `tasks` dictionary in
insertion order and returns the FIRST record whose url matches, which need not
be the active job.  With a finished record "T0" for the same URL already in
the registry, the first submission of the pair creates active job "T1", but
the second submission returns "T0", not "T1". -/
theorem dedup_counterexample :
    (process_video regC4 "T1" "t1" ⟨"u", true, true⟩).2 = "T1" ∧
    regC4a.processing_urls = ["u"] ∧
    regC4a.tasks
      = [("T0", completedRec), ("T1", initTask ⟨"u", true, true⟩ "t1")] ∧
    (process_video regC4a "T2" "t2" ⟨"u", true, true⟩).2 = "T0" ∧
    ("T0" : String) ≠ "T1" := by
  refine ⟨rfl, rfl, rfl, rfl, by decide⟩

/-- Claim C4 amended: while the first submission's job is active, a second
submission of the same URL returns the id of the earliest record in insertion
order whose URL matches, and creates no new record and spawns no new work; in
particular, when no older record with that URL exists, that is exactly the
first submission's id and the registry is returned unchanged. -/
theorem dedup_amended (st : Registry) (id1 id2 now1 now2 : String)
    (req : ProcessVideoRequest)
    (hnone : ∀ p ∈ st.tasks, p.2.url ≠ req.url) :
    (process_video st id1 now1 req).2 = id1 ∧
    process_video (process_video st id1 now1 req).1 id2 now2 req
      = ((process_video st id1 now1 req).1, id1) := by
  have hfind : st.tasks.find? (fun p => p.2.url == req.url) = none := by
    rw [List.find?_eq_none]
    intro p hp
    simpa using hnone p hp
  have h1 : process_video st id1 now1 req
      = ({ tasks := st.tasks ++ [(id1, initTask req now1)],
           processing_urls := addUrl st.processing_urls req.url,
           active_tasks := st.active_tasks ++ [id1] }, id1) := by
    unfold process_video
    by_cases hc : st.processing_urls.contains req.url = true
    · rw [if_pos hc, hfind]
    · rw [if_neg hc]
  refine ⟨by rw [h1], ?_⟩
  rw [h1]
  unfold process_video
  rw [if_pos (addUrl_contains st.processing_urls req.url)]
  rw [find?_append_of_none _ st.tasks _
    (fun p hp => by simpa using hnone p hp)]
  simp [List.find?, initTask]

/-- Witness for the amended C4 on the empty registry. -/
theorem dedup_amended_witness :
    (∀ p ∈ emptyRegistry.tasks, p.2.url ≠ "u") ∧
    ((process_video emptyRegistry "T1" "t1" ⟨"u", true, true⟩).2 = "T1" ∧
     process_video (process_video emptyRegistry "T1" "t1" ⟨"u", true, true⟩).1
         "T2" "t2" ⟨"u", true, true⟩
       = ((process_video emptyRegistry "T1" "t1" ⟨"u", true, true⟩).1, "T1")) :=
  ⟨fun p hp => absurd hp (List.not_mem_nil p),
   dedup_amended emptyRegistry "T1" "T2" "t1" "t2" ⟨"u", true, true⟩
     (fun p hp => absurd hp (List.not_mem_nil p))⟩

/-! ### Claims about the fallback cascade -/

/-- Claim C2 is refuted: when both assets are wanted and every acquisition
call fails (including the emergency retry), the job does end Failed, but the
error is the fixed generic message "处理视频失败: 没有成功下载任何文件": the
branch exceptions are swallowed inside the per-asset helpers, so the final
message references neither original failure. -/
theorem aggregate_error_counterexample :
    (download_video_and_audio exFail "http://u" "ab12cd34" true true).1
      = .error msgNoFiles ∧
    containsSub "video branch boom".toList msgNoFiles.toList = false ∧
    containsSub "audio branch boom".toList msgNoFiles.toList = false := by
  refine ⟨rfl, by decide, by decide⟩

/-- Claim C2 amended: with both assets wanted and the original video attempt,
the original audio attempt and the emergency video attempt all failing, the
engine fails with the FIXED generic message (independent of the branch
errors) and the job ends Failed carrying that message. -/
theorem aggregate_error_amended (env : TaskEnv) (url : String)
    (hv : dl_video env.ex url env.uniqueId = none)
    (ha : dl_audio env.ex url env.uniqueId = none)
    (he : dl_video env.ex url (env.uniqueId ++ "_emergency") = none) :
    (download_video_and_audio env.ex url env.uniqueId true true).1
      = .error msgNoFiles ∧
    (∀ taskId now info, env.infoRes = .ok info →
      (runTask env taskId url true true
          (initTask ⟨url, true, true⟩ now)).getLast?.map TaskRec.status
        = some "error" ∧
      (runTask env taskId url true true
          (initTask ⟨url, true, true⟩ now)).getLast?.map TaskRec.error
        = some (some msgNoFiles)) := by
  have heng : (download_video_and_audio env.ex url env.uniqueId true true).1
      = .error msgNoFiles := by
    simp [download_video_and_audio, hv, ha, he]
  refine ⟨heng, ?_⟩
  intro taskId now info hinfo
  unfold runTask
  rw [hinfo, heng]
  exact ⟨rfl, rfl⟩

/-- Witness for the amended C2 with the all-failing extractor. -/
theorem aggregate_error_amended_witness :
    (dl_video (envOf exFail).ex "http://u" (envOf exFail).uniqueId = none ∧
     dl_audio (envOf exFail).ex "http://u" (envOf exFail).uniqueId = none ∧
     dl_video (envOf exFail).ex "http://u"
       ((envOf exFail).uniqueId ++ "_emergency") = none) ∧
    (download_video_and_audio (envOf exFail).ex "http://u"
        (envOf exFail).uniqueId true true).1 = .error msgNoFiles :=
  ⟨⟨rfl, rfl, rfl⟩,
   (aggregate_error_amended (envOf exFail) "http://u" rfl rfl rfl).1⟩

/-- Claim C5: both wanted, video acquisition succeeds, audio acquisition
fails.  Audio is derived from the downloaded video via the transcoder and the
completed job carries both a video and an audio entry with status
"completed"; if the transcoder also fails, the engine still succeeds with a
video-only result (not fatal). -/
theorem audio_fallback_via_transcoder (env : TaskEnv) (url v : String)
    (hv : dl_video env.ex url env.uniqueId = some v)
    (ha : dl_audio env.ex url env.uniqueId = none) :
    (∀ a, extract_audio_from_video env.ex v env.uniqueId = some a →
      (download_video_and_audio env.ex url env.uniqueId true true).1
        = .ok ⟨some v, some a⟩ ∧
      ∀ taskId now info, env.infoRes = .ok info →
        (∀ p, env.fsExists p = true) →
        ∃ t, (runTask env taskId url true true
                (initTask ⟨url, true, true⟩ now)).getLast? = some t ∧
          t.status = "completed" ∧ t.progress = 100 ∧
          t.files.map Prod.fst = ["video", "audio"]) ∧
    (extract_audio_from_video env.ex v env.uniqueId = none →
      (download_video_and_audio env.ex url env.uniqueId true true).1
        = .ok ⟨some v, none⟩) := by
  constructor
  · intro a hext
    have heng : (download_video_and_audio env.ex url env.uniqueId true true).1
        = .ok ⟨some v, some a⟩ := by
      simp [download_video_and_audio, hv, ha, hext]
    refine ⟨heng, ?_⟩
    intro taskId now info hinfo hfs
    refine ⟨{ status := "completed", progress := 100, message := "处理完成！",
              created_at := now, completed_at := some env.now2, url := url,
              extract_audio := true, keep_video := true,
              files := (result_files_list ⟨some v, some a⟩).filterMap
                (build_link env.fsExists env.renameOk
                  ((sanitize_filename info.title.toList).asString)
                  (short_id taskId)),
              videoInfo := some info, error := none }, ?_, rfl, rfl, ?_⟩
    · unfold runTask
      rw [hinfo, heng]
      rfl
    · simp [result_files_list, build_link, hfs]
  · intro hext
    simp [download_video_and_audio, hv, ha, hext]

/-- Witness for C5 with a concrete extractor that fails audio acquisition but
downloads video, and a working transcoder. -/
theorem audio_fallback_via_transcoder_witness :
    (dl_video (envOf exAudioFail).ex "http://u" (envOf exAudioFail).uniqueId
        = some "video_ab12cd34.mp4" ∧
     dl_audio (envOf exAudioFail).ex "http://u" (envOf exAudioFail).uniqueId
        = none) ∧
    (download_video_and_audio (envOf exAudioFail).ex "http://u"
        (envOf exAudioFail).uniqueId true true).1
      = .ok ⟨some "video_ab12cd34.mp4", some "audio_ab12cd34.mp3"⟩ ∧
    ∃ t, (runTask (envOf exAudioFail) "T1-T1" "http://u" true true
            (initTask ⟨"http://u", true, true⟩ "t0")).getLast? = some t ∧
      t.status = "completed" ∧ t.progress = 100 ∧
      t.files.map Prod.fst = ["video", "audio"] :=
  ⟨⟨rfl, rfl⟩,
   ((audio_fallback_via_transcoder (envOf exAudioFail) "http://u"
        "video_ab12cd34.mp4" rfl rfl).1 "audio_ab12cd34.mp3" rfl).1,
   ((audio_fallback_via_transcoder (envOf exAudioFail) "http://u"
        "video_ab12cd34.mp4" rfl rfl).1 "audio_ab12cd34.mp3" rfl).2
     "T1-T1" "t0" ⟨"My Title"⟩ rfl (fun _ => rfl)⟩

/-- Claim C7: for a video-only request whose original and retry attempts both
fail, the engine raises and the job ends Failed, and the attempt trace is
exactly the two video acquisitions — no audio path, no transcoding, no
emergency attempt. -/
theorem video_only_fatal (env : TaskEnv) (url : String)
    (h1 : dl_video env.ex url env.uniqueId = none)
    (h2 : dl_video env.ex url (env.uniqueId ++ "_retry") = none) :
    download_video_and_audio env.ex url env.uniqueId false true
      = (.error msgVideoFailed,
         [.vid env.uniqueId, .vid (env.uniqueId ++ "_retry")]) ∧
    (∀ taskId now info, env.infoRes = .ok info →
      (runTask env taskId url false true
          (initTask ⟨url, false, true⟩ now)).getLast?.map TaskRec.status
        = some "error" ∧
      (runTask env taskId url false true
          (initTask ⟨url, false, true⟩ now)).getLast?.map TaskRec.error
        = some (some msgVideoFailed)) := by
  have heng : download_video_and_audio env.ex url env.uniqueId false true
      = (.error msgVideoFailed,
         [.vid env.uniqueId, .vid (env.uniqueId ++ "_retry")]) := by
    simp [download_video_and_audio, h1, h2]
  refine ⟨heng, ?_⟩
  intro taskId now info hinfo
  unfold runTask
  rw [hinfo]
  rw [show (download_video_and_audio env.ex url env.uniqueId false true).1
        = .error msgVideoFailed from by rw [heng]]
  exact ⟨rfl, rfl⟩

/-- Witness for C7 with the all-failing extractor. -/
theorem video_only_fatal_witness :
    (dl_video (envOf exFail).ex "http://u" (envOf exFail).uniqueId = none ∧
     dl_video (envOf exFail).ex "http://u"
       ((envOf exFail).uniqueId ++ "_retry") = none) ∧
    download_video_and_audio (envOf exFail).ex "http://u"
        (envOf exFail).uniqueId false true
      = (.error msgVideoFailed,
         [.vid (envOf exFail).uniqueId,
          .vid ((envOf exFail).uniqueId ++ "_retry")]) :=
  ⟨⟨rfl, rfl⟩, (video_only_fatal (envOf exFail) "http://u" rfl rfl).1⟩

/-- Claim C8: over the whole lifetime of a job — from the record written at
submission through every update of `process_video_task`, success or failure —
the recorded progress values form a non-decreasing sequence. -/
theorem progress_monotone (env : TaskEnv) (taskId now : String)
    (req : ProcessVideoRequest) :
    ((runTask env taskId req.url req.extract_audio req.keep_video
        (initTask req now)).map TaskRec.progress).Chain' (· ≤ ·) := by
  unfold runTask initTask errUpd
  rcases hinfo : env.infoRes with e | info
  · simp
  · rcases heng : (download_video_and_audio env.ex req.url env.uniqueId
        req.extract_audio req.keep_video).1 with e | r <;> simp

/-! ### Retention manager (src/api/file_cleaner.py)

A scanned file record (`_get_files_info`, src/api/file_cleaner.py:99-117):
name, size in bytes, modification time, and the age in hours computed at scan
time as `(time.time() - st_mtime) / 3600`. -/

structure FileInfo where
  name : String
  size : Nat
  mtime : Int
  age_hours : ℚ
deriving DecidableEq

/-- The retention parameters read from the configuration
(src/api/file_cleaner.py:31-40). -/
structure CleanupConfig where
  preserve_recent_files : Nat
  file_retention_hours : ℚ
  max_storage_mb : ℚ

/-- Sorting key of `files_info.sort(key=modified_time, reverse=True)`. -/
def newestFirst (f g : FileInfo) : Prop := g.mtime ≤ f.mtime

instance : DecidableRel newestFirst := fun f g => Int.decLe g.mtime f.mtime

/-- Sorting key of the ascending re-sort in the size phase. -/
def oldestFirst (f g : FileInfo) : Prop := f.mtime ≤ g.mtime

instance : DecidableRel oldestFirst := fun f g => Int.decLe f.mtime g.mtime

/-- `size / (1024 * 1024)` — bytes to (exact, rational) megabytes. -/
def mbOfBytes (n : Nat) : ℚ := (n : ℚ) / (1024 * 1024)

/-- Sum of the per-file megabyte sizes of a list. -/
def mbSum (l : List FileInfo) : ℚ := (l.map (fun f => mbOfBytes f.size)).sum

/-- `files_info` sorted newest first (src/api/file_cleaner.py:130). -/
def sortedFiles (files : List FileInfo) : List FileInfo :=
  List.insertionSort newestFirst files

/-- Strategy 1 (src/api/file_cleaner.py:133-135): the first
`preserve_recent_files` entries are exempt. -/
def preservedOf (cfg : CleanupConfig) (files : List FileInfo) : List FileInfo :=
  (sortedFiles files).take cfg.preserve_recent_files

/-- The non-exempt candidates (src/api/file_cleaner.py:135). -/
def candidatesOf (cfg : CleanupConfig) (files : List FileInfo) : List FileInfo :=
  (sortedFiles files).drop cfg.preserve_recent_files

/-- Strategy 2 (src/api/file_cleaner.py:141-142): candidates older than the
retention threshold. -/
def oldFilesOf (cfg : CleanupConfig) (files : List FileInfo) : List FileInfo :=
  (candidatesOf cfg files).filter
    (fun f => decide (cfg.file_retention_hours < f.age_hours))

/-- `remaining_files = [f for f in candidate_files if f not in old_files]`
(src/api/file_cleaner.py:152). -/
def remainingOf (cfg : CleanupConfig) (files : List FileInfo) : List FileInfo :=
  (candidatesOf cfg files).filter
    (fun f => !(decide (f ∈ oldFilesOf cfg files)))

/-- `total_size_mb = sum(f.size for f in files_info) / (1024*1024)`
(src/api/file_cleaner.py:153) — note this sums over ALL scanned files,
including the ones the age phase has just deleted. -/
def prePassTotal (files : List FileInfo) : ℚ :=
  mbOfBytes ((files.map FileInfo.size).sum)

/-- The size-phase loop (src/api/file_cleaner.py:161-168): walk the surviving
candidates oldest first; stop once the running total is at or under the
budget; each successful deletion decrements the running total by the file's
megabyte size. -/
def sizePhase (del : FileInfo → Bool) (maxMb : ℚ) :
    List FileInfo → ℚ → List FileInfo
  | [], _ => []
  | f :: fs, total =>
    if total ≤ maxMb then []
    else if del f then f :: sizePhase del maxMb fs (total - mbOfBytes f.size)
    else sizePhase del maxMb fs total

/-- The observable outcome of one `_execute_cleanup_strategy` pass: the
exempt files and the files deleted by the age and size phases. -/
structure CleanupOutcome where
  preserved : List FileInfo
  deletedOld : List FileInfo
  deletedSize : List FileInfo
deriving DecidableEq

/-- `_execute_cleanup_strategy` (src/api/file_cleaner.py:119-171).  `del` is
the best-effort deletion oracle (`_delete_file` returns False on failure). -/
def execute_cleanup_strategy (cfg : CleanupConfig) (del : FileInfo → Bool)
    (files_info : List FileInfo) : CleanupOutcome :=
  { preserved := preservedOf cfg files_info
    deletedOld := (oldFilesOf cfg files_info).filter del
    deletedSize :=
      if cfg.max_storage_mb < prePassTotal files_info ∧
          remainingOf cfg files_info ≠ [] then
        sizePhase del cfg.max_storage_mb
          (List.insertionSort oldestFirst (remainingOf cfg files_info))
          (prePassTotal files_info)
      else [] }

/-! #### Retention lemmas -/

theorem mem_sizePhase {del : FileInfo → Bool} {maxMb : ℚ} :
    ∀ {l : List FileInfo} {t : ℚ} {f : FileInfo},
      f ∈ sizePhase del maxMb l t → f ∈ l := by
  intro l
  induction l with
  | nil => intro t f h; simp [sizePhase] at h
  | cons g gs ih =>
    intro t f h
    unfold sizePhase at h
    by_cases hc : t ≤ maxMb
    · rw [if_pos hc] at h; cases h
    · rw [if_neg hc] at h
      by_cases hd : del g = true
      · rw [if_pos hd] at h
        rcases List.mem_cons.1 h with h1 | h2
        · exact h1 ▸ List.mem_cons_self _ _
        · exact List.mem_cons_of_mem _ (ih h2)
      · rw [if_neg hd] at h
        exact List.mem_cons_of_mem _ (ih h)

theorem deletedOld_sub_candidates (cfg : CleanupConfig) (del : FileInfo → Bool)
    (files : List FileInfo) {f : FileInfo}
    (hf : f ∈ (execute_cleanup_strategy cfg del files).deletedOld) :
    f ∈ candidatesOf cfg files := by
  unfold execute_cleanup_strategy at hf
  exact List.mem_of_mem_filter (List.mem_of_mem_filter hf)

theorem deletedSize_sub_candidates (cfg : CleanupConfig) (del : FileInfo → Bool)
    (files : List FileInfo) {f : FileInfo}
    (hf : f ∈ (execute_cleanup_strategy cfg del files).deletedSize) :
    f ∈ candidatesOf cfg files := by
  unfold execute_cleanup_strategy at hf
  simp only at hf
  by_cases hg : cfg.max_storage_mb < prePassTotal files ∧
      remainingOf cfg files ≠ []
  · rw [if_pos hg] at hf
    have h1 := mem_sizePhase hf
    rw [List.mem_insertionSort] at h1
    exact List.mem_of_mem_filter h1
  · rw [if_neg hg] at hf
    cases hf

theorem preserved_candidates_disjoint (cfg : CleanupConfig)
    (files : List FileInfo) (hnd : files.Nodup) {f : FileInfo}
    (h1 : f ∈ preservedOf cfg files) (h2 : f ∈ candidatesOf cfg files) :
    False := by
  have hs : (sortedFiles files).Nodup :=
    ((List.perm_insertionSort newestFirst files).nodup_iff).mpr hnd
  rw [← List.take_append_drop cfg.preserve_recent_files (sortedFiles files),
    List.nodup_append] at hs
  exact hs.2.2 h1 h2

/-- Exempt files are never deleted by either phase of a pass. -/
theorem preserved_not_deleted (cfg : CleanupConfig) (del : FileInfo → Bool)
    (files : List FileInfo) (hnd : files.Nodup) {f : FileInfo}
    (hf : f ∈ preservedOf cfg files) :
    f ∉ (execute_cleanup_strategy cfg del files).deletedOld ∧
    f ∉ (execute_cleanup_strategy cfg del files).deletedSize := by
  constructor
  · intro h
    exact preserved_candidates_disjoint cfg files hnd hf
      (deletedOld_sub_candidates cfg del files h)
  · intro h
    exact preserved_candidates_disjoint cfg files hnd hf
      (deletedSize_sub_candidates cfg del files h)

/-- The size-phase loop with always-succeeding deletion removes an
oldest-first prefix and stops exactly when the running total reaches the
budget (or the candidates run out). -/
theorem sizePhase_spec (maxMb : ℚ) :
    ∀ (l : List FileInfo) (t : ℚ),
      ∃ k, sizePhase (fun _ => true) maxMb l t = l.take k ∧
        (t - mbSum (sizePhase (fun _ => true) maxMb l t) ≤ maxMb ∨
         sizePhase (fun _ => true) maxMb l t = l) := by
  intro l
  induction l with
  | nil =>
    intro t
    exact ⟨0, rfl, Or.inr rfl⟩
  | cons f fs ih =>
    intro t
    by_cases hc : t ≤ maxMb
    · have h0 : sizePhase (fun _ => true) maxMb (f :: fs) t = [] := by
        unfold sizePhase; rw [if_pos hc]
      refine ⟨0, by rw [h0]; rfl, Or.inl ?_⟩
      rw [h0]
      simpa [mbSum] using hc
    · have hstep : sizePhase (fun _ => true) maxMb (f :: fs) t
          = f :: sizePhase (fun _ => true) maxMb fs (t - mbOfBytes f.size) := by
        simp [sizePhase, hc]
      rcases ih (t - mbOfBytes f.size) with ⟨k, hk, hcond⟩
      refine ⟨k + 1, by rw [hstep, hk]; rfl, ?_⟩
      rcases hcond with h | h
      · left
        rw [hstep, hk]
        rw [hk] at h
        simp only [mbSum, List.map_cons, List.sum_cons] at h ⊢
        linarith
      · right
        rw [hstep, h]

/-! #### Retention claims -/

/-- A just-written 300 MiB file (scanned age 0 hours). -/
def fNew : FileInfo := ⟨"new.mp4", 300 * 1024 * 1024, 100, 0⟩

/-- An old 900 MiB file (scanned age two hours). -/
def fOld : FileInfo := ⟨"old.mp4", 900 * 1024 * 1024, 0, 2⟩

/-- preserve none, retain 1 hour, budget 400 MB. -/
def cfgC3 : CleanupConfig := ⟨0, 1, 400⟩

/-- Claim C3 is refuted: the size-budget phase does NOT recompute the
aggregate over the files remaining after the age phase — it keeps the sum
over ALL scanned files (src/api/file_cleaner.py:153 sums `files_info`,
including the old files just deleted).  Here the age phase deletes the 900 MB
old file, the surviving files total 300 MB ≤ the 400 MB budget, so per the
claim nothing more may be deleted — yet the pass also deletes the surviving
new file because the stale 1200 MB total exceeds the budget. -/
theorem size_budget_counterexample :
    (execute_cleanup_strategy cfgC3 (fun _ => true) [fNew, fOld]).preserved
      = [] ∧
    (execute_cleanup_strategy cfgC3 (fun _ => true) [fNew, fOld]).deletedOld
      = [fOld] ∧
    remainingOf cfgC3 [fNew, fOld] = [fNew] ∧
    mbSum (preservedOf cfgC3 [fNew, fOld])
        + mbSum (remainingOf cfgC3 [fNew, fOld]) ≤ cfgC3.max_storage_mb ∧
    (execute_cleanup_strategy cfgC3 (fun _ => true) [fNew, fOld]).deletedSize
      = [fNew] := by
  have hageNew : ¬ (cfgC3.file_retention_hours < fNew.age_hours) := by
    norm_num [cfgC3, fNew]
  have hageOld : cfgC3.file_retention_hours < fOld.age_hours := by
    norm_num [cfgC3, fOld]
  have hsort : sortedFiles [fNew, fOld] = [fNew, fOld] := by
    apply List.Sorted.insertionSort_eq
    refine List.Pairwise.cons ?_ (List.Pairwise.cons ?_ List.Pairwise.nil) <;>
      (intro f hf; fin_cases hf <;> simp [newestFirst, fNew, fOld])
  have hpres : preservedOf cfgC3 [fNew, fOld] = [] := by
    unfold preservedOf
    rw [hsort]
    rfl
  have hcand : candidatesOf cfgC3 [fNew, fOld] = [fNew, fOld] := by
    unfold candidatesOf
    rw [hsort]
    rfl
  have hold : oldFilesOf cfgC3 [fNew, fOld] = [fOld] := by
    unfold oldFilesOf
    rw [hcand]
    simp [List.filter_cons, decide_eq_true_eq, hageNew, hageOld]
  have hNeqO : fNew ≠ fOld := by
    simp [fNew, fOld]
  have hrem : remainingOf cfgC3 [fNew, fOld] = [fNew] := by
    unfold remainingOf
    rw [hcand, hold]
    simp [List.filter_cons, hNeqO]
  have htot : cfgC3.max_storage_mb < prePassTotal [fNew, fOld] := by
    norm_num [cfgC3, prePassTotal, mbOfBytes, fNew, fOld]
  have hsize : (execute_cleanup_strategy cfgC3 (fun _ => true)
      [fNew, fOld]).deletedSize = [fNew] := by
    unfold execute_cleanup_strategy
    rw [if_pos ⟨htot, by rw [hrem]; simp⟩, hrem]
    have hone : List.insertionSort oldestFirst [fNew] = [fNew] := rfl
    rw [hone]
    unfold sizePhase
    rw [if_neg (not_le.mpr htot)]
    simp [sizePhase]
  refine ⟨?_, ?_, hrem, ?_, hsize⟩
  · show preservedOf cfgC3 [fNew, fOld] = []
    exact hpres
  · show (oldFilesOf cfgC3 [fNew, fOld]).filter (fun _ => true) = [fOld]
    rw [hold]
    simp
  · rw [hpres, hrem]
    norm_num [mbSum, mbOfBytes, cfgC3, fNew]

/-- Claim C3 amended: the size-budget phase compares the budget against the
aggregate of ALL files scanned at the start of the pass (including those the
age phase already deleted), not against the remaining files.  If that pre-pass
total exceeds the budget, surviving non-exempt candidates are deleted
oldest-first (an ascending-mtime prefix), each deletion decrementing the
running figure, until it is at or under budget or no candidates remain;
exempt files count toward the total but are never deleted. -/
theorem size_budget_amended (cfg : CleanupConfig) (files : List FileInfo)
    (hnd : files.Nodup) :
    (∃ k, (execute_cleanup_strategy cfg (fun _ => true) files).deletedSize
        = (List.insertionSort oldestFirst (remainingOf cfg files)).take k) ∧
    (prePassTotal files
        - mbSum (execute_cleanup_strategy cfg (fun _ => true) files).deletedSize
        ≤ cfg.max_storage_mb ∨
      (execute_cleanup_strategy cfg (fun _ => true) files).deletedSize
        = List.insertionSort oldestFirst (remainingOf cfg files)) ∧
    (∀ f ∈ preservedOf cfg files,
      f ∉ (execute_cleanup_strategy cfg (fun _ => true) files).deletedOld ∧
      f ∉ (execute_cleanup_strategy cfg (fun _ => true) files).deletedSize) := by
  by_cases hg : cfg.max_storage_mb < prePassTotal files ∧
      remainingOf cfg files ≠ []
  · have hds : (execute_cleanup_strategy cfg (fun _ => true) files).deletedSize
        = sizePhase (fun _ => true) cfg.max_storage_mb
            (List.insertionSort oldestFirst (remainingOf cfg files))
            (prePassTotal files) := by
      unfold execute_cleanup_strategy
      simp only [if_pos hg]
    rcases sizePhase_spec cfg.max_storage_mb
        (List.insertionSort oldestFirst (remainingOf cfg files))
        (prePassTotal files) with ⟨k, hk, hcond⟩
    refine ⟨⟨k, by rw [hds, hk]⟩, ?_,
      fun f hf => preserved_not_deleted cfg _ files hnd hf⟩
    rcases hcond with h | h
    · left; rw [hds]; exact h
    · right; rw [hds, h]
  · have hds : (execute_cleanup_strategy cfg (fun _ => true) files).deletedSize
        = [] := by
      unfold execute_cleanup_strategy
      simp only [if_neg hg]
    refine ⟨⟨0, by rw [hds]; rfl⟩, ?_,
      fun f hf => preserved_not_deleted cfg _ files hnd hf⟩
    rcases not_and_or.1 hg with hA | hB
    · left
      rw [hds]
      simpa [mbSum] using le_of_not_lt hA
    · right
      rw [hds, not_not.1 hB]
      rfl

/-- Witness for the amended C3 on the concrete two-file scan. -/
theorem size_budget_amended_witness :
    ([fNew, fOld] : List FileInfo).Nodup ∧
    ((∃ k,
        (execute_cleanup_strategy cfgC3 (fun _ => true) [fNew, fOld]).deletedSize
          = (List.insertionSort oldestFirst (remainingOf cfgC3 [fNew, fOld])).take k) ∧
     (prePassTotal [fNew, fOld]
          - mbSum (execute_cleanup_strategy cfgC3 (fun _ => true)
              [fNew, fOld]).deletedSize
          ≤ cfgC3.max_storage_mb ∨
       (execute_cleanup_strategy cfgC3 (fun _ => true) [fNew, fOld]).deletedSize
         = List.insertionSort oldestFirst (remainingOf cfgC3 [fNew, fOld])) ∧
     (∀ f ∈ preservedOf cfgC3 [fNew, fOld],
       f ∉ (execute_cleanup_strategy cfgC3 (fun _ => true) [fNew, fOld]).deletedOld ∧
       f ∉ (execute_cleanup_strategy cfgC3 (fun _ => true) [fNew, fOld]).deletedSize)) := by
  have hnd : ([fNew, fOld] : List FileInfo).Nodup := by
    simp [fNew, fOld]
  exact ⟨hnd, size_budget_amended cfgC3 [fNew, fOld] hnd⟩

/-- Claim C6: the `preserveRecent` newest files are exempt and never deleted,
every non-exempt file whose age exceeds the retention threshold is deleted,
and concretely, for any five files E,D,C,B,A strictly ordered newest to
oldest (with scan-consistent ages, the scan happening no earlier than the
newest file's mtime) a pass with preserveRecent = 2 and retentionHours = 0
retains exactly {E, D} and deletes {C, B, A}, whatever their ages and
whatever the storage budget. -/
theorem preserve_recent_and_age (e d c b a : FileInfo) (now : Int) (maxMb : ℚ)
    (h1 : d.mtime < e.mtime) (h2 : c.mtime < d.mtime) (h3 : b.mtime < c.mtime)
    (h4 : a.mtime < b.mtime) (hnow : e.mtime ≤ now)
    (hage : ∀ f ∈ [e, d, c, b, a],
      f.age_hours = (((now : ℚ) - (f.mtime : ℚ)) / 3600)) :
    (execute_cleanup_strategy ⟨2, 0, maxMb⟩ (fun _ => true)
        [e, d, c, b, a]).preserved = [e, d] ∧
    (execute_cleanup_strategy ⟨2, 0, maxMb⟩ (fun _ => true)
        [e, d, c, b, a]).deletedOld = [c, b, a] ∧
    (execute_cleanup_strategy ⟨2, 0, maxMb⟩ (fun _ => true)
        [e, d, c, b, a]).deletedSize = [] ∧
    (∀ (cfg : CleanupConfig) (del : FileInfo → Bool) (files : List FileInfo),
      files.Nodup → ∀ f ∈ preservedOf cfg files,
        f ∉ (execute_cleanup_strategy cfg del files).deletedOld ∧
        f ∉ (execute_cleanup_strategy cfg del files).deletedSize) ∧
    (∀ (cfg : CleanupConfig) (files : List FileInfo) (f : FileInfo),
      f ∈ candidatesOf cfg files →
      cfg.file_retention_hours < f.age_hours →
      f ∈ (execute_cleanup_strategy cfg (fun _ => true) files).deletedOld) := by
  have hsorted : List.Sorted newestFirst [e, d, c, b, a] := by
    refine List.Pairwise.cons ?_ (List.Pairwise.cons ?_ (List.Pairwise.cons ?_
      (List.Pairwise.cons ?_ (List.Pairwise.cons ?_ List.Pairwise.nil)))) <;>
      intro f hf <;> fin_cases hf <;> simp only [newestFirst] <;> omega
  have hsort : sortedFiles [e, d, c, b, a] = [e, d, c, b, a] :=
    List.Sorted.insertionSort_eq hsorted
  have agepos : ∀ f ∈ [c, b, a], (0 : ℚ) < f.age_hours := by
    intro f hf
    have hmem : f ∈ [e, d, c, b, a] := by fin_cases hf <;> simp
    have hmt : f.mtime < now := by fin_cases hf <;> omega
    rw [hage f hmem]
    have hcast : (f.mtime : ℚ) < (now : ℚ) := by exact_mod_cast hmt
    exact div_pos (by linarith) (by norm_num)
  have hc0 : (0 : ℚ) < c.age_hours := agepos c (by simp)
  have hb0 : (0 : ℚ) < b.age_hours := agepos b (by simp)
  have ha0 : (0 : ℚ) < a.age_hours := agepos a (by simp)
  have hpres : preservedOf ⟨2, 0, maxMb⟩ [e, d, c, b, a] = [e, d] := by
    unfold preservedOf
    rw [hsort]
    rfl
  have hcand : candidatesOf ⟨2, 0, maxMb⟩ [e, d, c, b, a] = [c, b, a] := by
    unfold candidatesOf
    rw [hsort]
    rfl
  have hold : oldFilesOf ⟨2, 0, maxMb⟩ [e, d, c, b, a] = [c, b, a] := by
    unfold oldFilesOf
    rw [hcand]
    simp [List.filter_cons, decide_eq_true_eq, hc0, hb0, ha0]
  have hrem : remainingOf ⟨2, 0, maxMb⟩ [e, d, c, b, a] = [] := by
    unfold remainingOf
    rw [hcand, hold]
    simp [List.filter_cons]
  refine ⟨?_, ?_, ?_, ?_, ?_⟩
  · show preservedOf _ _ = [e, d]
    exact hpres
  · show (oldFilesOf _ _).filter (fun _ => true) = [c, b, a]
    rw [hold]
    simp
  · have hg : ¬ ((⟨2, 0, maxMb⟩ : CleanupConfig).max_storage_mb
        < prePassTotal [e, d, c, b, a] ∧
        remainingOf ⟨2, 0, maxMb⟩ [e, d, c, b, a] ≠ []) :=
      fun h => h.2 hrem
    show (if _ ∧ remainingOf _ _ ≠ [] then _ else []) = []
    rw [if_neg hg]
  · intro cfg del files hnd f hf
    exact preserved_not_deleted cfg del files hnd hf
  · intro cfg files f hf hage2
    show f ∈ (oldFilesOf cfg files).filter (fun _ => true)
    refine List.mem_filter.2 ⟨?_, rfl⟩
    exact List.mem_filter.2 ⟨hf, decide_eq_true hage2⟩

/-- Concrete files for the C6 witness, scanned at time 100 (age in hours is
(100 - mtime)/3600). -/
def fE : FileInfo := ⟨"E", 10, 100, 0⟩

def fD : FileInfo := ⟨"D", 20, 90, 1/360⟩

def fC : FileInfo := ⟨"C", 30, 50, 1/72⟩

def fB : FileInfo := ⟨"B", 40, 30, 7/360⟩

def fA : FileInfo := ⟨"A", 50, 10, 1/40⟩

/-- Witness for C6 at the five concrete files. -/
theorem preserve_recent_and_age_witness :
    (fD.mtime < fE.mtime ∧ fC.mtime < fD.mtime ∧ fB.mtime < fC.mtime ∧
     fA.mtime < fB.mtime ∧ fE.mtime ≤ (100 : Int) ∧
     ∀ f ∈ [fE, fD, fC, fB, fA],
       f.age_hours = ((((100 : Int) : ℚ) - (f.mtime : ℚ)) / 3600)) ∧
    (execute_cleanup_strategy ⟨2, 0, 1000⟩ (fun _ => true)
        [fE, fD, fC, fB, fA]).preserved = [fE, fD] ∧
    (execute_cleanup_strategy ⟨2, 0, 1000⟩ (fun _ => true)
        [fE, fD, fC, fB, fA]).deletedOld = [fC, fB, fA] ∧
    (execute_cleanup_strategy ⟨2, 0, 1000⟩ (fun _ => true)
        [fE, fD, fC, fB, fA]).deletedSize = [] := by
  have hages : ∀ f ∈ [fE, fD, fC, fB, fA],
      f.age_hours = ((((100 : Int) : ℚ) - (f.mtime : ℚ)) / 3600) := by
    intro f hf
    fin_cases hf <;> norm_num [fE, fD, fC, fB, fA]
  have h := preserve_recent_and_age fE fD fC fB fA 100 1000 (by decide)
    (by decide) (by decide) (by decide) (by decide) hages
  exact ⟨⟨by decide, by decide, by decide, by decide, by decide, hages⟩,
    h.1, h.2.1, h.2.2.1⟩

end VideoAPI
